import Mathlib

/-!
Verification development for the Company Affiliation Consistency Engine of the
licenses-message-dispatcher repository.  The definitions below are shallow
embeddings of the Python source: the document store is a list of affiliate
documents, a company reference is a record, and the legacy union-shaped
`company` field is a sum type.  Theorems settle the frozen claims about the
resolver, the normalizer, the affiliation mutator (link/unlink) and the
cascade propagator.
-/

namespace AffiliationEngine

/-- Embedded company reference as stored inside an affiliate document
(`app/models/customer.py`, `CompanyReference` / raw reference dicts).
`id` is `none` when the stored dict has no `id` key (legacy bare-name refs);
`isCompanyActive` is `none` when the stored dict lacks the flag. -/
structure CompanyRef where
  id : Option Nat
  name : String
  isCompanyActive : Option Bool
  license_type : Option String
deriving DecidableEq, Repr

/-- The union-shaped `company` field of a stored affiliate document
(spec §4.2 shapes, as branched on by the repository code):
absent/None, bare string, legacy single object, or current array. -/
inductive CompanyField where
  | empty : CompanyField
  | str (s : String) : CompanyField
  | obj (r : CompanyRef) : CompanyField
  | arr (l : List CompanyRef) : CompanyField
deriving DecidableEq, Repr

/-- Canonical Company entity (`app/models/company.py`): `active` is the legacy
boolean, `status` ranges over `ativo | suspenso | em_negociacao` (optional),
`license_type` over `Start | Hub` (optional). -/
structure Company where
  id : Nat
  name : String
  linked : Bool
  active : Bool
  status : Option String
  license_type : Option String
deriving DecidableEq, Repr

/-- Model of Python's `str.strip()`: drop whitespace from both ends. -/
def pyStrip (s : String) : String :=
  String.mk (((s.data.dropWhile Char.isWhitespace).reverse.dropWhile
    Char.isWhitespace).reverse)

/-- `CompanyRepository.find_by_name` (`app/repositories/company_repository.py`
lines 106-111): exact-match lookup by name. -/
def find_by_name (db : List Company) (name : String) : Option Company :=
  db.find? (fun c => c.name == name)

/-- The reference dict built by `resolve_company_reference` on success
(`app/repositories/customer_repository.py` lines 85-97): id, name, the
computed `isCompanyActive` (status equals "ativo" AND active is true) and the
company's license type. -/
def mkResolvedRef (c : Company) : CompanyRef :=
  { id := some c.id
    name := c.name
    isCompanyActive := some (c.status == some "ativo" && c.active)
    license_type := c.license_type }

/-- `CustomerRepository.resolve_company_reference`
(`app/repositories/customer_repository.py` lines 57-103) over an infallible
store: empty/whitespace name resolves to none; lookup is by trimmed name;
with `validateStatus` the company is rejected when its legacy `active`
boolean is false. -/
def resolve_company_reference (db : List Company) (companyName : String)
    (validateStatus : Bool) : Option CompanyRef :=
  if pyStrip companyName = "" then none
  else
    match find_by_name db (pyStrip companyName) with
    | none => none
    | some c =>
      if validateStatus && !c.active then none
      else some (mkResolvedRef c)

/-- `TeamRepository.resolve_company_reference`
(`app/repositories/team_repository.py` lines 22-67); its body is
line-for-line the same as the customer-side resolver. -/
def team_resolve_company_reference (db : List Company) (companyName : String)
    (validateStatus : Bool) : Option CompanyRef :=
  if pyStrip companyName = "" then none
  else
    match find_by_name db (pyStrip companyName) with
    | none => none
    | some c =>
      if validateStatus && !c.active then none
      else some (mkResolvedRef c)

/-- Operationally active in the spec's sense (glossary): status field equals
"ativo" AND the legacy active boolean is true. -/
def operationallyActive (c : Company) : Bool :=
  c.status == some "ativo" && c.active

/-- Example company that is suspended (status not "ativo") but still has the
legacy active flag set: the resolver accepts it. -/
def exSuspended : Company :=
  { id := 1, name := "Acme", linked := true, active := true
    status := some "suspenso", license_type := some "Start" }

/-- Example store containing only the suspended-but-active company. -/
def exDB : List Company := [exSuspended]

/-- C2 counterexample: with `validateStatus = true` the resolver succeeds on a
company whose status is "suspenso" (not operationally active), so resolution
success is not equivalent to operational activity as the claim states. -/
theorem C2_resolver_counterexample :
    (resolve_company_reference exDB "Acme" true).isSome = true ∧
    operationallyActive exSuspended = false ∧
    find_by_name exDB "Acme" = some exSuspended := by
  decide

/-- C2 amended: with `validateStatus = true`, resolution succeeds iff the
trimmed name is non-empty and names an existing company whose legacy `active`
boolean is true; the status field does not affect eligibility and is only
recorded in the returned reference's `isCompanyActive` value.  The team-side
resolver behaves identically. -/
theorem C2_resolver_active_flag_only (db : List Company) (name : String) :
    (∀ r, resolve_company_reference db name true = some r ↔
      (pyStrip name ≠ "" ∧ ∃ c, find_by_name db (pyStrip name) = some c ∧
        c.active = true ∧ r = mkResolvedRef c)) ∧
    (∀ c, (mkResolvedRef c).isCompanyActive = some (operationallyActive c)) ∧
    team_resolve_company_reference db name true =
      resolve_company_reference db name true := by
  refine ⟨?_, fun c => rfl, rfl⟩
  intro r
  unfold resolve_company_reference
  by_cases hempty : pyStrip name = ""
  · rw [if_pos hempty]
    simp [hempty]
  · rw [if_neg hempty]
    cases hfind : find_by_name db (pyStrip name) with
    | none => simp [hempty]
    | some c =>
      cases hact : c.active with
      | false =>
        simp only [hact, Bool.not_false, Bool.and_true, if_true]
        constructor
        · intro h; cases h
        · rintro ⟨-, c', hc', hact', -⟩
          cases hc'
          rw [hact] at hact'
          cases hact'
      | true =>
        simp only [hact, Bool.not_true, Bool.and_false, if_false,
          Bool.true_and]
        constructor
        · intro h
          exact ⟨hempty, c, rfl, hact, (Option.some_inj.mp h).symm⟩
        · rintro ⟨-, c', hc', -, hr⟩
          cases hc'
          rw [hr]
          simp

/-- C2 witness: a concrete application of the amended resolver theorem. -/
theorem C2_resolver_active_flag_only_witness :
    resolve_company_reference exDB " Acme " true = some (mkResolvedRef exSuspended) :=
  ((C2_resolver_active_flag_only exDB " Acme ").1 (mkResolvedRef exSuspended)).mpr
    ⟨by decide, exSuspended, by decide, by decide, rfl⟩

/-- Reader default for the embedded flag: `company.get("isCompanyActive", True)`
— a missing flag counts as active. -/
def effActive (r : CompanyRef) : Bool :=
  r.isCompanyActive.getD true

/-- `normalize_company_array_field` (`app/models/customer.py` lines 213-265):
`None` becomes the empty list, a list is kept (entries copied), a single
object becomes a one-element list, and a bare string becomes a one-element
list holding a name-only reference dict. -/
def normalize_company_array_field : CompanyField → List CompanyRef
  | .empty => []
  | .arr l => l
  | .obj r => [r]
  | .str s => [{ id := none, name := s, isCompanyActive := none, license_type := none }]

/-- The company-field normalization applied by `CustomerRepository.find_by_id`
(`app/repositories/customer_repository.py` lines 254-261) before a customer
document is handed to `link_company` / `unlink_company`: a present, non-null
field is replaced by its `normalize_company_array_field` image. -/
def loadCompanyField : CompanyField → CompanyField
  | .empty => .empty
  | f => .arr (normalize_company_array_field f)

/-- The in-method normalization block shared by `link_company` (lines 435-457)
and `unlink_company` (lines 547-566): list entries are copied to dicts, a
single object becomes a one-element list, and a bare string is resolved with
`validate_status=False` (dropped when resolution fails). -/
def mutatorNormalize (db : List Company) : CompanyField → List CompanyRef
  | .empty => []
  | .arr l => l
  | .obj r => [r]
  | .str s =>
    match resolve_company_reference db s false with
    | some r => [r]
    | none => []

/-- User-correctable failures of the affiliation mutator (spec §7 taxonomy;
raised as `ValueError`s in `customer_repository.py`). -/
inductive MutatorError where
  | companyNotEligible : MutatorError
  | alreadyLinked : MutatorError
  | nothingToUnlink : MutatorError
deriving DecidableEq, Repr

/-- One affiliate document as seen by the mutator: its union-shaped company
field and its own `license_type` field. -/
structure CustomerDoc where
  company : CompanyField
  license_type : Option String
deriving DecidableEq, Repr

/-- The duplicate-scan and array-rewrite core of `link_company`
(`app/repositories/customer_repository.py` lines 459-498): walk the existing
references for the first entry whose `id` is present and equals the resolved
company's id; if that entry is (effectively) active, fail with
`AlreadyLinked`; if it is inactive, reactivate it in place (refreshing its
cached name) and mark every other entry inactive; if no entry matches, mark
every entry inactive and append the resolved reference as active. -/
def linkMerge (companyRef : CompanyRef) : List CompanyRef → Except MutatorError (List CompanyRef)
  | [] => .ok [{ companyRef with isCompanyActive := some true }]
  | r :: rest =>
    if r.id.isSome && r.id == companyRef.id then
      if effActive r then .error .alreadyLinked
      else .ok ({ r with isCompanyActive := some true, name := companyRef.name } ::
        rest.map (fun x => { x with isCompanyActive := some false }))
    else
      match linkMerge companyRef rest with
      | .error e => .error e
      | .ok tail => .ok ({ r with isCompanyActive := some false } :: tail)

/-- `CustomerRepository.link_company` (lines 412-520) at the document level:
resolve the company with `validate_status=True` (failure is the
`CompanyNotEligible` user error), normalize the loaded document's company
field, rewrite the array through `linkMerge`, and persist the array together
with the affiliate-level `license_type` taken from the resolved company when
it carries one. -/
def link_company (db : List Company) (doc : CustomerDoc) (companyName : String) :
    Except MutatorError CustomerDoc :=
  match resolve_company_reference db companyName true with
  | none => .error .companyNotEligible
  | some companyRef =>
    match linkMerge companyRef (mutatorNormalize db (loadCompanyField doc.company)) with
    | .error e => .error e
    | .ok refs =>
      .ok { doc with
        company := .arr refs
        license_type :=
          match companyRef.license_type with
          | some lt => some lt
          | none => doc.license_type }

/-- First pass of `unlink_company` (lines 575-591): remove the first
reference whose effective flag is active, keeping every other entry; `none`
when no reference is effectively active. -/
def removeFirstActive : List CompanyRef → Option (List CompanyRef)
  | [] => none
  | r :: rest =>
    if effActive r then some rest
    else
      match removeFirstActive rest with
      | some rest' => some (r :: rest')
      | none => none

/-- `CustomerRepository.unlink_company` (lines 522-617) at the document
level: normalize the loaded references, fail with `NothingToUnlink` when the
array is empty, otherwise remove the first effectively-active reference —
or, when none is active, the first reference — and persist the remainder. -/
def unlink_company (db : List Company) (doc : CustomerDoc) :
    Except MutatorError CustomerDoc :=
  let existing := mutatorNormalize db (loadCompanyField doc.company)
  if existing.isEmpty then .error .nothingToUnlink
  else
    let updated := (removeFirstActive existing).getD existing.tail
    .ok { doc with company := .arr updated }

/-- A link/unlink request against one affiliate (spec §4.3 operations). -/
inductive AffOp where
  | link (companyName : String) : AffOp
  | unlink : AffOp
deriving DecidableEq, Repr

/-- Apply one mutator operation; a failed operation performs no write, so the
stored document is unchanged. -/
def applyAffOp (db : List Company) (doc : CustomerDoc) : AffOp → CustomerDoc
  | .link n =>
    match link_company db doc n with
    | .ok d => d
    | .error _ => doc
  | .unlink =>
    match unlink_company db doc with
    | .ok d => d
    | .error _ => doc

/-- Run a sequence of link/unlink operations against one affiliate. -/
def runAffOps (db : List Company) (doc : CustomerDoc) (ops : List AffOp) : CustomerDoc :=
  ops.foldl (applyAffOp db) doc

/-- The reference entries stored in the affiliate's company array: an array
stores its entries, a legacy single object stores one, a bare string or an
absent field stores none. -/
def storedRefs : CompanyField → List CompanyRef
  | .empty => []
  | .str _ => []
  | .obj r => [r]
  | .arr l => l

/-- Number of stored references whose `isCompanyActive` field is `true`. -/
def countActive (l : List CompanyRef) : Nat :=
  (l.filter (fun r => r.isCompanyActive == some true)).length

/-- Single-active invariant (spec §3): at most one stored reference carries
`isCompanyActive = true`. -/
def singleActiveInv (doc : CustomerDoc) : Prop :=
  countActive (storedRefs doc.company) ≤ 1

lemma countActive_nil : countActive [] = 0 := rfl

lemma countActive_cons (r : CompanyRef) (l : List CompanyRef) :
    countActive (r :: l) =
      (if r.isCompanyActive == some true then 1 else 0) + countActive l := by
  unfold countActive
  by_cases h : (r.isCompanyActive == some true) = true
  · simp [List.filter_cons, h, Nat.add_comm]
  · simp [List.filter_cons, h]

lemma filter_map_inactive (l : List CompanyRef) :
    (l.map (fun x => { x with isCompanyActive := some false })).filter
      (fun r => r.isCompanyActive == some true) = [] := by
  induction l with
  | nil => rfl
  | cons r rest ih => simp [List.filter_cons, ih]

lemma linkMerge_ok_activeFilter (companyRef : CompanyRef) :
    ∀ l l', linkMerge companyRef l = .ok l' →
      ∃ a, l'.filter (fun r => r.isCompanyActive == some true) = [a] ∧
        a.id = companyRef.id ∧ a.name = companyRef.name := by
  intro l
  induction l with
  | nil =>
    intro l' h
    unfold linkMerge at h
    cases h
    exact ⟨_, rfl, rfl, rfl⟩
  | cons r rest ih =>
    intro l' h
    unfold linkMerge at h
    by_cases hm : (r.id.isSome && r.id == companyRef.id) = true
    · rw [if_pos hm] at h
      by_cases ha : effActive r = true
      · rw [if_pos ha] at h; cases h
      · rw [if_neg ha] at h
        cases h
        refine ⟨{ r with isCompanyActive := some true, name := companyRef.name },
          ?_, ?_, rfl⟩
        · rw [List.filter_cons]
          simp [filter_map_inactive]
        · show r.id = companyRef.id
          have hb : (r.id == companyRef.id) = true := by
            cases hb : (r.id == companyRef.id)
            · rw [hb, Bool.and_false] at hm; cases hm
            · rfl
          exact eq_of_beq hb
    · rw [if_neg hm] at h
      cases hrec : linkMerge companyRef rest with
      | error e => rw [hrec] at h; cases h
      | ok tail =>
        rw [hrec] at h
        cases h
        obtain ⟨a, hfil, hid, hname⟩ := ih tail hrec
        refine ⟨a, ?_, hid, hname⟩
        rw [List.filter_cons]
        simp [hfil]

lemma removeFirstActive_countActive :
    ∀ l l', removeFirstActive l = some l' → countActive l' ≤ countActive l := by
  intro l
  induction l with
  | nil => intro l' h; cases h
  | cons r rest ih =>
    intro l' h
    unfold removeFirstActive at h
    by_cases ha : effActive r = true
    · rw [if_pos ha] at h
      cases h
      rw [countActive_cons]
      exact Nat.le_add_left _ _
    · rw [if_neg ha] at h
      cases hrec : removeFirstActive rest with
      | none => rw [hrec] at h; cases h
      | some rest' =>
        rw [hrec] at h
        cases h
        rw [countActive_cons, countActive_cons]
        exact Nat.add_le_add_left (ih rest' hrec) _

lemma countActive_tail (l : List CompanyRef) : countActive l.tail ≤ countActive l := by
  cases l with
  | nil => exact Nat.le_refl _
  | cons r rest =>
    rw [List.tail_cons, countActive_cons]
    exact Nat.le_add_left _ _

lemma mutatorNormalize_load_countActive (db : List Company) (f : CompanyField) :
    countActive (mutatorNormalize db (loadCompanyField f)) = countActive (storedRefs f) := by
  cases f <;> rfl

lemma link_company_ok (db : List Company) (doc : CustomerDoc) (name : String)
    (doc' : CustomerDoc) (h : link_company db doc name = .ok doc') :
    ∃ ref refs, resolve_company_reference db name true = some ref ∧
      linkMerge ref (mutatorNormalize db (loadCompanyField doc.company)) = .ok refs ∧
      doc'.company = .arr refs := by
  unfold link_company at h
  split at h
  · simp at h
  · rename_i ref hres
    split at h
    · simp at h
    · rename_i refs hmerge
      cases h
      exact ⟨ref, refs, hres, hmerge, rfl⟩

lemma unlink_company_ok (db : List Company) (doc : CustomerDoc)
    (doc' : CustomerDoc) (h : unlink_company db doc = .ok doc') :
    ∃ updated, doc'.company = .arr updated ∧
      countActive updated ≤ countActive (mutatorNormalize db (loadCompanyField doc.company)) := by
  simp only [unlink_company] at h
  split at h
  · simp at h
  · cases h
    cases hrem : removeFirstActive (mutatorNormalize db (loadCompanyField doc.company)) with
    | some l =>
      exact ⟨l, rfl, removeFirstActive_countActive _ _ hrem⟩
    | none =>
      exact ⟨(mutatorNormalize db (loadCompanyField doc.company)).tail,
        rfl, countActive_tail _⟩

lemma singleActiveInv_applyAffOp (db : List Company) (doc : CustomerDoc) (op : AffOp)
    (h : singleActiveInv doc) : singleActiveInv (applyAffOp db doc op) := by
  cases op with
  | link n =>
    simp only [applyAffOp]
    cases hres : link_company db doc n with
    | error e => exact h
    | ok d =>
      obtain ⟨ref, refs, -, hmerge, hcomp⟩ := link_company_ok db doc n d hres
      obtain ⟨a, hfil, -, -⟩ := linkMerge_ok_activeFilter ref _ refs hmerge
      show singleActiveInv d
      unfold singleActiveInv
      rw [hcomp]
      show countActive refs ≤ 1
      unfold countActive
      rw [hfil]
      exact Nat.le_refl _
  | unlink =>
    simp only [applyAffOp]
    cases hres : unlink_company db doc with
    | error e => exact h
    | ok d =>
      obtain ⟨updated, hcomp, hle⟩ := unlink_company_ok db doc d hres
      show singleActiveInv d
      unfold singleActiveInv
      rw [hcomp]
      show countActive updated ≤ 1
      calc countActive updated
          ≤ countActive (mutatorNormalize db (loadCompanyField doc.company)) := hle
        _ = countActive (storedRefs doc.company) := mutatorNormalize_load_countActive db _
        _ ≤ 1 := h

lemma singleActiveInv_runAffOps (db : List Company) :
    ∀ (ops : List AffOp) (doc : CustomerDoc), singleActiveInv doc →
      singleActiveInv (runAffOps db doc ops) := by
  intro ops
  induction ops with
  | nil => intro doc h; exact h
  | cons op rest ih =>
    intro doc h
    exact ih (applyAffOp db doc op) (singleActiveInv_applyAffOp db doc op h)

/-- C1: starting from a document satisfying the single-active invariant, any
sequence of link/unlink operations preserves it (0 or 1 active stored
references, never more); and immediately after a successful `link_company`
exactly one stored reference is active, namely the newly linked company (its
id and cached name are those of the resolved company). -/
theorem C1_single_active_invariant (db : List Company) (doc : CustomerDoc)
    (ops : List AffOp) (hinv : singleActiveInv doc) :
    singleActiveInv (runAffOps db doc ops) ∧
    (∀ name doc', link_company db doc name = .ok doc' →
      ∃ ref, resolve_company_reference db name true = some ref ∧
        ∃ a, (storedRefs doc'.company).filter
            (fun r => r.isCompanyActive == some true) = [a] ∧
          a.id = ref.id ∧ a.name = ref.name) := by
  constructor
  · exact singleActiveInv_runAffOps db ops doc hinv
  · intro name doc' hok
    obtain ⟨ref, refs, hres, hmerge, hcomp⟩ := link_company_ok db doc name doc' hok
    obtain ⟨a, hfil, hid, hname⟩ := linkMerge_ok_activeFilter ref _ refs hmerge
    exact ⟨ref, hres, a, by rw [hcomp]; exact hfil, hid, hname⟩

/-- Example fully active company used by the witnesses. -/
def exActive : Company :=
  { id := 2, name := "Beta", linked := true, active := true
    status := some "ativo", license_type := some "Hub" }

/-- Example store with a suspended company and an active one. -/
def exDB2 : List Company := [exSuspended, exActive]

/-- Example affiliate document with no company field. -/
def exDoc : CustomerDoc := { company := .empty, license_type := none }

/-- Example operation sequence: link, relink another company, unlink. -/
def exOps : List AffOp := [.link "Beta", .link "Acme", .unlink]

/-- C1 witness: the invariant theorem applied to a concrete store, document
and operation sequence. -/
theorem C1_single_active_invariant_witness :
    singleActiveInv (runAffOps exDB2 exDoc exOps) ∧
    (∀ name doc', link_company exDB2 exDoc name = .ok doc' →
      ∃ ref, resolve_company_reference exDB2 name true = some ref ∧
        ∃ a, (storedRefs doc'.company).filter
            (fun r => r.isCompanyActive == some true) = [a] ∧
          a.id = ref.id ∧ a.name = ref.name) :=
  C1_single_active_invariant exDB2 exDoc exOps (by unfold singleActiveInv; decide)

lemma linkMerge_ok_of_mem (companyRef : CompanyRef) :
    ∀ (l l' : List CompanyRef),
      (∃ r ∈ l, (r.id.isSome && r.id == companyRef.id) = true) →
      linkMerge companyRef l = .ok l' →
      l'.length = l.length ∧
      ∃ j rOld, l[j]? = some rOld ∧
        (rOld.id.isSome && rOld.id == companyRef.id) = true ∧
        effActive rOld = false ∧
        l'[j]? = some { rOld with isCompanyActive := some true, name := companyRef.name } ∧
        ∀ (k : Nat) (r' : CompanyRef), k ≠ j → l'[k]? = some r' →
          r'.isCompanyActive = some false := by
  intro l
  induction l with
  | nil =>
    rintro l' ⟨r, hr, -⟩ -
    exact absurd hr (List.not_mem_nil r)
  | cons r rest ih =>
    rintro l' hmem h
    unfold linkMerge at h
    by_cases hm : (r.id.isSome && r.id == companyRef.id) = true
    · rw [if_pos hm] at h
      by_cases ha : effActive r = true
      · rw [if_pos ha] at h; cases h
      · rw [if_neg ha] at h
        cases h
        refine ⟨by simp, 0, r, by simp, hm, by simpa using ha, by simp, ?_⟩
        intro k r' hk hkr
        cases k with
        | zero => exact absurd rfl hk
        | succ k' =>
          rw [List.getElem?_cons_succ, List.getElem?_map] at hkr
          cases hx : rest[k']? with
          | none => rw [hx] at hkr; cases hkr
          | some x =>
            rw [hx] at hkr
            cases hkr
            rfl
    · rw [if_neg hm] at h
      have hmem' : ∃ x ∈ rest, (x.id.isSome && x.id == companyRef.id) = true := by
        obtain ⟨x, hx, hxp⟩ := hmem
        rcases List.mem_cons.mp hx with rfl | hx'
        · exact absurd hxp hm
        · exact ⟨x, hx', hxp⟩
      cases hrec : linkMerge companyRef rest with
      | error e => rw [hrec] at h; cases h
      | ok tail =>
        rw [hrec] at h
        cases h
        obtain ⟨hlen, j, rOld, hj, hjp, hjact, hjres, hother⟩ := ih tail hmem' hrec
        refine ⟨by simp [hlen], j + 1, rOld, ?_, hjp, hjact, ?_, ?_⟩
        · rw [List.getElem?_cons_succ]; exact hj
        · rw [List.getElem?_cons_succ]; exact hjres
        · intro k r' hk hkr
          cases k with
          | zero =>
            rw [List.getElem?_cons_zero] at hkr
            cases hkr
            rfl
          | succ k' =>
            rw [List.getElem?_cons_succ] at hkr
            exact hother k' r' (fun hkj => hk (by rw [hkj])) hkr

/-- C5: when the normalized reference array contains an entry for the
resolved company and the entry is inactive, a successful link reuses that
entry in place: the array length is unchanged, the matched entry (at its old
index) becomes active with its cached name refreshed from the resolved
company, and every reference at any other index is marked inactive. -/
theorem C5_reactivation_over_duplication (db : List Company) (doc : CustomerDoc)
    (name : String) (ref : CompanyRef) (doc' : CustomerDoc)
    (hres : resolve_company_reference db name true = some ref)
    (hmem : ∃ r ∈ mutatorNormalize db (loadCompanyField doc.company),
      (r.id.isSome && r.id == ref.id) = true)
    (hok : link_company db doc name = .ok doc') :
    ∃ l', doc'.company = .arr l' ∧
      l'.length = (mutatorNormalize db (loadCompanyField doc.company)).length ∧
      ∃ j rOld, (mutatorNormalize db (loadCompanyField doc.company))[j]? = some rOld ∧
        (rOld.id.isSome && rOld.id == ref.id) = true ∧ effActive rOld = false ∧
        l'[j]? = some { rOld with isCompanyActive := some true, name := ref.name } ∧
        ∀ (k : Nat) (r' : CompanyRef), k ≠ j → l'[k]? = some r' →
          r'.isCompanyActive = some false := by
  obtain ⟨ref2, refs, hres2, hmerge, hcomp⟩ := link_company_ok db doc name doc' hok
  rw [hres] at hres2
  obtain rfl : ref = ref2 := Option.some_inj.mp hres2
  obtain ⟨hlen, hrest⟩ := linkMerge_ok_of_mem ref _ refs hmem hmerge
  exact ⟨refs, hcomp, hlen, hrest⟩

/-- Stale inactive reference to the company "Beta" (old cached name). -/
def c5OldRef : CompanyRef :=
  { id := some 2, name := "BetaOld", isCompanyActive := some false, license_type := none }

/-- The reference after reactivation: refreshed name, active flag set. -/
def c5NewRef : CompanyRef :=
  { id := some 2, name := "Beta", isCompanyActive := some true, license_type := none }

/-- Document holding an inactive reference to the company "Beta" under a
stale cached name. -/
def c5Doc : CustomerDoc :=
  { company := .arr [c5OldRef], license_type := none }

/-- Expected result of relinking "Beta" to `c5Doc`: the entry is reactivated
in place with the refreshed name, and the license type propagates. -/
def c5Result : CustomerDoc :=
  { company := .arr [c5NewRef], license_type := some "Hub" }

/-- C5 witness: the reactivation theorem applied to a concrete store and
document. -/
theorem C5_reactivation_over_duplication_witness :
    ∃ l', c5Result.company = .arr l' ∧
      l'.length = (mutatorNormalize exDB2 (loadCompanyField c5Doc.company)).length ∧
      ∃ j rOld, (mutatorNormalize exDB2 (loadCompanyField c5Doc.company))[j]? = some rOld ∧
        (rOld.id.isSome && rOld.id == (mkResolvedRef exActive).id) = true ∧
        effActive rOld = false ∧
        l'[j]? = some { rOld with isCompanyActive := some true, name := (mkResolvedRef exActive).name } ∧
        ∀ (k : Nat) (r' : CompanyRef), k ≠ j → l'[k]? = some r' →
          r'.isCompanyActive = some false :=
  C5_reactivation_over_duplication exDB2 c5Doc "Beta" (mkResolvedRef exActive)
    c5Result (by decide) (by decide) (by rfl)

/-- C7: when the normalized reference array of an affiliate is empty, unlink
fails with the `NothingToUnlink` error and performs no write — applying the
operation leaves the stored document unchanged. -/
theorem C7_unlink_empty_no_write (db : List Company) (doc : CustomerDoc)
    (h : mutatorNormalize db (loadCompanyField doc.company) = []) :
    unlink_company db doc = .error .nothingToUnlink ∧
    applyAffOp db doc .unlink = doc := by
  have hemp : (mutatorNormalize db (loadCompanyField doc.company)).isEmpty = true := by
    rw [h]; rfl
  have hu : unlink_company db doc = .error .nothingToUnlink := by
    simp [unlink_company, hemp]
  refine ⟨hu, ?_⟩
  simp [applyAffOp, hu]

/-- C7 witness: unlink on a document with no company field. -/
theorem C7_unlink_empty_no_write_witness :
    unlink_company exDB2 exDoc = .error .nothingToUnlink ∧
    applyAffOp exDB2 exDoc .unlink = exDoc :=
  C7_unlink_empty_no_write exDB2 exDoc (by decide)

/-- A stored affiliate document as the cascade propagator sees it (raw
collection document): primary key, union-shaped company field, own license
type. -/
structure StoredDoc where
  docId : Nat
  company : CompanyField
  license_type : Option String
deriving DecidableEq, Repr

/-- The filter `{"company": {"$elemMatch": {"id": cid}}}` used by the
cascades: it matches only documents whose company field is an array
containing an entry with the given id. -/
def elemMatchId (cid : Nat) (d : StoredDoc) : Bool :=
  match d.company with
  | .arr l => l.any (fun r => r.id == some cid)
  | _ => false

/-- The filter `{"company.id": cid}`: matches an entry of an array-shaped
field or the legacy single-object shape itself. -/
def dotIdMatch (cid : Nat) (d : StoredDoc) : Bool :=
  match d.company with
  | .arr l => l.any (fun r => r.id == some cid)
  | .obj r => r.id == some cid
  | _ => false

/-- Per-document rewrite of `CustomerRepository.update_company_name` (lines
671-699): for a fetched document whose company field is an array, rewrite
the cached name of every entry whose id matches; any other shape is left
as-is by the loop. -/
def update_company_name_doc (cid : Nat) (newName : String) (d : StoredDoc) : StoredDoc :=
  match d.company with
  | .arr l =>
    { d with company := .arr (l.map (fun r =>
        if r.id == some cid then { r with name := newName } else r)) }
  | _ => d

/-- `CustomerRepository.update_company_name` (lines 646-708) over the whole
customers collection: documents are fetched with the `$elemMatch` filter
only, and each fetched document has its matching entries renamed. -/
def update_company_name (cid : Nat) (newName : String) (store : List StoredDoc) :
    List StoredDoc :=
  store.map (fun d =>
    if elemMatchId cid d then update_company_name_doc cid newName d else d)

/-- The should-update scan of `update_license_type_by_company` (lines
846-882): a fetched document is updated when some reference matching the
company id (array entry, or the legacy single object) is effectively
active. -/
def license_should_update (cid : Nat) (d : StoredDoc) : Bool :=
  match d.company with
  | .arr l => l.any (fun r => r.id == some cid && effActive r)
  | .obj r => r.id == some cid && effActive r
  | _ => false

/-- `CustomerRepository.update_license_type_by_company` (lines 804-903):
documents are fetched by the union of the `$elemMatch` and dotted-id
filters, deduplicated by primary key, and each fetched document whose scan
succeeds gets its own `license_type` overwritten. -/
def update_license_type_by_company (cid : Nat) (newLicenseType : String)
    (store : List StoredDoc) : List StoredDoc :=
  store.map (fun d =>
    if (elemMatchId cid d || dotIdMatch cid d) && license_should_update cid d then
      { d with license_type := some newLicenseType }
    else d)

/-- Modelled from the spec's words for the license cascade selection rule
(claim C6): the company is the affiliate's currently active reference — some
embedded reference carries the company id and counts as active under the
reader default (missing flag = active) — in either storage shape. -/
def specActiveReference (cid : Nat) (d : StoredDoc) : Bool :=
  match d.company with
  | .arr l => l.any (fun r => r.id == some cid && r.isCompanyActive.getD true)
  | .obj r => r.id == some cid && r.isCompanyActive.getD true
  | _ => false

/-- Reference to company 7 stored in the legacy single-object shape. -/
def c3Ref : CompanyRef :=
  { id := some 7, name := "OldName", isCompanyActive := some true, license_type := none }

/-- Affiliate document storing its reference in the legacy single-object
shape. -/
def c3LegacyDoc : StoredDoc :=
  { docId := 1, company := .obj c3Ref, license_type := none }

/-- C3 counterexample: the rename cascade leaves a document in the legacy
single-object shape untouched — the fetch filter is `$elemMatch` only and
the rewrite loop handles only the array shape — so the embedded cached name
stays stale, contradicting "regardless of storage shape". -/
theorem C3_rename_counterexample :
    update_company_name 7 "NewName" [c3LegacyDoc] = [c3LegacyDoc] ∧
    c3LegacyDoc.company = .obj c3Ref ∧ c3Ref.id = some 7 ∧
    c3Ref.name ≠ "NewName" := by
  decide

/-- C3 amended: the rename cascade rewrites the cached name of every
matching embedded reference of every affiliate document stored in the array
shape, in any activation state (the rewrite never inspects the active flag);
documents stored in the legacy single-object shape — and documents with a
bare-string or absent company field — are left unchanged. -/
theorem C3_rename_array_any_state (cid : Nat) (newName : String)
    (store : List StoredDoc) (i : Nat) (d : StoredDoc)
    (hd : store[i]? = some d) :
    (∀ l, d.company = .arr l → ∃ l',
      (update_company_name cid newName store)[i]? =
        some { d with company := .arr l' } ∧
      l'.length = l.length ∧
      ∀ (j : Nat) (r : CompanyRef), l[j]? = some r →
        l'[j]? = some (if r.id = some cid then { r with name := newName } else r)) ∧
    (∀ r, d.company = .obj r →
      (update_company_name cid newName store)[i]? = some d) ∧
    (∀ s, d.company = .str s →
      (update_company_name cid newName store)[i]? = some d) ∧
    (d.company = .empty →
      (update_company_name cid newName store)[i]? = some d) := by
  have hmap : (update_company_name cid newName store)[i]? =
      some (if elemMatchId cid d then update_company_name_doc cid newName d else d) := by
    unfold update_company_name
    rw [List.getElem?_map, hd]
    rfl
  refine ⟨?_, ?_, ?_, ?_⟩
  · intro l hl
    by_cases hmatch : elemMatchId cid d = true
    · refine ⟨l.map (fun r => if r.id == some cid then { r with name := newName } else r),
        ?_, by simp, ?_⟩
      · rw [hmap, if_pos hmatch]
        unfold update_company_name_doc
        rw [hl]
      · intro j r hj
        rw [List.getElem?_map, hj]
        by_cases hr : r.id = some cid
        · simp [hr]
        · simp [hr]
    · refine ⟨l, ?_, rfl, ?_⟩
      · rw [hmap, if_neg hmatch]
        have : { d with company := CompanyField.arr l } = d := by rw [← hl]
        rw [this]
      · intro j r hj
        have hrmem : r ∈ l := List.getElem?_mem hj
        have hno : ∀ x ∈ l, ¬(x.id == some cid) = true := by
          have := hmatch
          unfold elemMatchId at this
          rw [hl] at this
          simpa [List.any_eq_true] using this
        have hrid : ¬r.id = some cid := by
          intro hcontra
          exact hno r hrmem (by simp [hcontra])
        simp [hrid, hj]
  · intro r hr
    rw [hmap]
    have hmatch : elemMatchId cid d = false := by
      unfold elemMatchId; rw [hr]
    rw [hmatch]
    simp
  · intro s hs
    rw [hmap]
    have hmatch : elemMatchId cid d = false := by
      unfold elemMatchId; rw [hs]
    rw [hmatch]
    simp
  · intro he
    rw [hmap]
    have hmatch : elemMatchId cid d = false := by
      unfold elemMatchId; rw [he]
    rw [hmatch]
    simp

/-- Historical (inactive) reference to company 7 with a stale name. -/
def c3HistRef : CompanyRef :=
  { id := some 7, name := "OldName", isCompanyActive := some false, license_type := none }

/-- Active reference to company 7 with a stale name. -/
def c3ActRef : CompanyRef :=
  { id := some 7, name := "OldName", isCompanyActive := some true, license_type := none }

/-- Array-shape document holding an inactive and an active reference to
company 7 under stale names. -/
def c3ArrDoc : StoredDoc :=
  { docId := 2, company := .arr [c3HistRef, c3ActRef], license_type := none }

/-- C3 witness: the amended rename theorem applied to a one-document store
in the array shape. -/
theorem C3_rename_array_any_state_witness :
    (∀ l, c3ArrDoc.company = .arr l → ∃ l',
      (update_company_name 7 "NewName" [c3ArrDoc])[0]? =
        some { c3ArrDoc with company := .arr l' } ∧
      l'.length = l.length ∧
      ∀ (j : Nat) (r : CompanyRef), l[j]? = some r →
        l'[j]? = some (if r.id = some 7 then { r with name := "NewName" } else r)) ∧
    (∀ r, c3ArrDoc.company = .obj r →
      (update_company_name 7 "NewName" [c3ArrDoc])[0]? = some c3ArrDoc) ∧
    (∀ s, c3ArrDoc.company = .str s →
      (update_company_name 7 "NewName" [c3ArrDoc])[0]? = some c3ArrDoc) ∧
    (c3ArrDoc.company = .empty →
      (update_company_name 7 "NewName" [c3ArrDoc])[0]? = some c3ArrDoc) :=
  C3_rename_array_any_state 7 "NewName" [c3ArrDoc] 0 c3ArrDoc rfl

/-- C6: the license-type cascade overwrites the affiliate's license type for
exactly those documents for which the company is the currently active
reference — a reference with the company id whose flag counts as active
under the reader default — in both the array and legacy single-object
shapes; every other document (including those holding only inactive
historical references to the company) is unchanged. -/
theorem C6_license_cascade_selectivity (cid : Nat) (newLicenseType : String)
    (store : List StoredDoc) :
    update_license_type_by_company cid newLicenseType store =
      store.map (fun d =>
        if specActiveReference cid d then
          { d with license_type := some newLicenseType }
        else d) := by
  unfold update_license_type_by_company
  apply List.map_congr_left
  intro d _
  have hgate : ((elemMatchId cid d || dotIdMatch cid d) &&
      license_should_update cid d) = specActiveReference cid d := by
    cases hc : d.company with
    | empty =>
      simp [elemMatchId, dotIdMatch, license_should_update, specActiveReference, hc]
    | str s =>
      simp [elemMatchId, dotIdMatch, license_should_update, specActiveReference, hc]
    | obj r =>
      simp only [elemMatchId, dotIdMatch, license_should_update,
        specActiveReference, hc, Bool.false_or, effActive]
      cases h1 : (r.id == some cid) <;> simp
    | arr l =>
      simp only [elemMatchId, dotIdMatch, license_should_update,
        specActiveReference, hc, Bool.or_self, effActive]
      cases hb : l.any (fun r => r.id == some cid && r.isCompanyActive.getD true) with
      | false => simp [hb]
      | true =>
        have hany : l.any (fun r => r.id == some cid) = true := by
          obtain ⟨r, hr, hp⟩ := List.any_eq_true.mp hb
          exact List.any_eq_true.mpr ⟨r, hr, by
            cases h1 : (r.id == some cid)
            · rw [h1, Bool.false_and] at hp; cases hp
            · rfl⟩
        simp [hany]
  rw [hgate]

/-- Per-document logic of `CustomerRepository.update_company_active_status`
(lines 944-987): in the array shape, a matching entry is rewritten always
when the document holds at most one reference, and only when it is
effectively active if the document holds several (historical entries are
preserved); the legacy single-object shape is always rewritten on match. -/
def update_company_active_status_doc (cid : Nat) (newFlag : Bool) (d : StoredDoc) :
    StoredDoc :=
  match d.company with
  | .arr l =>
    let hasMultiple : Bool := decide (1 < l.length)
    { d with company := .arr (l.map (fun r =>
        if r.id == some cid && (!hasMultiple || effActive r) then
          { r with isCompanyActive := some newFlag }
        else r)) }
  | .obj r =>
    if r.id == some cid then
      { d with company := .obj { r with isCompanyActive := some newFlag } }
    else d
  | .str _ => d
  | .empty => d

/-- `CustomerRepository.update_company_active_status` (lines 905-1008) over
the collection: fetch by the union of the `$elemMatch` and dotted-id
filters, deduplicate by primary key, and apply the per-document rewrite. -/
def update_company_active_status (cid : Nat) (newFlag : Bool)
    (store : List StoredDoc) : List StoredDoc :=
  store.map (fun d =>
    if elemMatchId cid d || dotIdMatch cid d then
      update_company_active_status_doc cid newFlag d
    else d)

/-- Which fields the administrative company-update request supplied
(the `exclude_unset` semantics of `update_company` in
`app/routers/companies.py`). -/
structure UpdateProvided where
  name : Bool
  license_type : Bool
  active : Bool
  linked : Bool
deriving DecidableEq, Repr

/-- Customer-store effect of the company update handler
(`app/routers/companies.py` lines 211-274): a provided, changed name
triggers the rename cascade; a provided, changed, non-empty license type
triggers the license cascade; a provided active/linked change only touches
the company document itself (contract bookkeeping) and issues no
customer-store write. -/
def update_company_cascade (cur new : Company) (provided : UpdateProvided)
    (store : List StoredDoc) : List StoredDoc :=
  let s1 :=
    if provided.name && !(cur.name == new.name) then
      update_company_name new.id new.name store
    else store
  match new.license_type with
  | some lt =>
    if provided.license_type && !(cur.license_type == new.license_type) then
      update_license_type_by_company new.id lt s1
    else s1
  | none => s1

/-- Company before the deactivating update. -/
def c4Cur : Company :=
  { id := 5, name := "Gamma", linked := true, active := true
    status := some "ativo", license_type := some "Start" }

/-- Same company after the update sets `active := false`. -/
def c4New : Company := { c4Cur with active := false }

/-- An update request that supplied only the `active` field. -/
def c4ActiveOnly : UpdateProvided :=
  { name := false, license_type := false, active := true, linked := false }

/-- The affiliate's single, currently active reference to company 5. -/
def c4Ref : CompanyRef :=
  { id := some 5, name := "Gamma", isCompanyActive := some true, license_type := none }

/-- Affiliate document whose only reference is the active reference to
company 5. -/
def c4Doc : StoredDoc :=
  { docId := 3, company := .arr [c4Ref], license_type := some "Start" }

/-- C4 counterexample: a company update that changes only the `active` flag
leaves the customer store untouched — the update handler never invokes the
`isCompanyActive` recompute cascade — so the affiliate's single matching
reference keeps `isCompanyActive = true` instead of being recomputed. -/
theorem C4_active_cascade_counterexample :
    update_company_cascade c4Cur c4New c4ActiveOnly [c4Doc] = [c4Doc] ∧
    c4Cur.active = true ∧ c4New.active = false ∧
    c4Doc.company = .arr [c4Ref] ∧ c4Ref.id = some c4New.id ∧
    c4Ref.isCompanyActive = some true := by
  decide

/-- C4 amended: the repository function `update_company_active_status` does
implement the claimed per-reference rule — a matching entry is always
rewritten when the affiliate holds at most one reference, and only the
effectively active matching entry is rewritten when it holds several, with
the legacy single-object shape always rewritten on match — but the company
update handler never invokes it: an update providing neither name nor
license type (in particular one that only changes active/linked) performs no
customer-store write at all. -/
theorem C4_active_status_cascade_unwired (cur new : Company)
    (provided : UpdateProvided) (store : List StoredDoc)
    (hn : provided.name = false) (hl : provided.license_type = false) :
    update_company_cascade cur new provided store = store ∧
    (∀ (cid : Nat) (b : Bool) (i : Nat) (d : StoredDoc), store[i]? = some d →
      (∀ l, d.company = .arr l → ∃ l',
        (update_company_active_status cid b store)[i]? =
          some { d with company := .arr l' } ∧
        l'.length = l.length ∧
        ∀ (j : Nat) (r : CompanyRef), l[j]? = some r →
          l'[j]? = some (if r.id = some cid ∧ (l.length ≤ 1 ∨ effActive r = true)
            then { r with isCompanyActive := some b } else r)) ∧
      (∀ r, d.company = .obj r →
        (update_company_active_status cid b store)[i]? =
          some (if r.id = some cid then
            { d with company := .obj { r with isCompanyActive := some b } }
          else d)) ∧
      (∀ s, d.company = .str s →
        (update_company_active_status cid b store)[i]? = some d) ∧
      (d.company = .empty →
        (update_company_active_status cid b store)[i]? = some d)) := by
  constructor
  · unfold update_company_cascade
    cases new.license_type <;> simp [hn, hl]
  · intro cid b i d hd
    have hmap : (update_company_active_status cid b store)[i]? =
        some (if elemMatchId cid d || dotIdMatch cid d then
          update_company_active_status_doc cid b d else d) := by
      unfold update_company_active_status
      rw [List.getElem?_map, hd]
      rfl
    refine ⟨?_, ?_, ?_, ?_⟩
    · intro l hlarr
      by_cases hgate : (elemMatchId cid d || dotIdMatch cid d) = true
      · refine ⟨l.map (fun r =>
          if r.id == some cid && (!(decide (1 < l.length)) || effActive r) then
            { r with isCompanyActive := some b } else r), ?_, by simp, ?_⟩
        · rw [hmap, if_pos hgate]
          unfold update_company_active_status_doc
          rw [hlarr]
        · intro j r hj
          rw [List.getElem?_map, hj]
          by_cases hr : r.id = some cid
          · by_cases hlen : l.length ≤ 1
            · have h1 : ¬(1 < l.length) := by omega
              simp [hr, hlen, h1]
            · have h1 : 1 < l.length := by omega
              cases he : effActive r with
              | true => simp [hr, hlen, h1, he]
              | false => simp [hr, hlen, h1, he]
          · simp [hr]
      · refine ⟨l, ?_, rfl, ?_⟩
        · rw [hmap, if_neg hgate]
          have heta : { d with company := CompanyField.arr l } = d := by rw [← hlarr]
          rw [heta]
        · intro j r hj
          have hrmem : r ∈ l := List.getElem?_mem hj
          have hgate' : elemMatchId cid d = false := by
            cases hx : elemMatchId cid d
            · rfl
            · exact absurd (by rw [hx]; simp) hgate
          have hno : ∀ x ∈ l, ¬(x.id == some cid) = true := by
            unfold elemMatchId at hgate'
            rw [hlarr] at hgate'
            simpa [List.any_eq_true] using hgate'
          have hrid : ¬r.id = some cid := fun hcontra =>
            hno r hrmem (by simp [hcontra])
          simp [hrid, hj]
    · intro r hobj
      have hel : elemMatchId cid d = false := by
        unfold elemMatchId; rw [hobj]
      have hdot : dotIdMatch cid d = (r.id == some cid) := by
        unfold dotIdMatch; rw [hobj]
      rw [hmap, hel, hdot]
      by_cases hr : r.id = some cid
      · rw [show (r.id == some cid) = true by simp [hr]]
        unfold update_company_active_status_doc
        rw [hobj]
        simp [hr]
      · rw [show (r.id == some cid) = false by simp [hr]]
        simp [hr]
    · intro sVal hstr
      have hel : elemMatchId cid d = false := by
        unfold elemMatchId; rw [hstr]
      have hdot : dotIdMatch cid d = false := by
        unfold dotIdMatch; rw [hstr]
      rw [hmap, hel, hdot]
      simp
    · intro hemp
      have hel : elemMatchId cid d = false := by
        unfold elemMatchId; rw [hemp]
      have hdot : dotIdMatch cid d = false := by
        unfold dotIdMatch; rw [hemp]
      rw [hmap, hel, hdot]
      simp

/-- C4 witness: the amended theorem applied to the concrete deactivation
scenario, yielding the no-customer-write conclusion. -/
theorem C4_active_status_cascade_unwired_witness :
    update_company_cascade c4Cur c4New c4ActiveOnly [c4Doc] = [c4Doc] :=
  (C4_active_status_cascade_unwired c4Cur c4New c4ActiveOnly [c4Doc] rfl rfl).1

/-- `CustomerRepository.get_active_company` (lines 22-55): the first
effectively active entry of an array, an effectively active single object,
nothing for a bare string or an absent field.  A missing flag defaults to
active. -/
def get_active_company : CompanyField → Option CompanyRef
  | .empty => none
  | .arr l => l.find? (fun r => effActive r)
  | .obj r => if effActive r then some r else none
  | .str _ => none

lemma find?_effActive_append (r : CompanyRef) (post : List CompanyRef)
    (hr : effActive r = true) :
    ∀ pre : List CompanyRef, (∀ p ∈ pre, effActive p = false) →
      (pre ++ r :: post).find? (fun x => effActive x) = some r := by
  intro pre
  induction pre with
  | nil =>
    intro _
    simp [List.find?_cons, hr]
  | cons p ps ih =>
    intro hall
    have hp : effActive p = false := hall p (List.mem_cons_self p ps)
    rw [List.cons_append, List.find?_cons, hp]
    exact ih (fun q hq => hall q (List.mem_cons_of_mem p hq))

lemma removeFirstActive_append (r : CompanyRef) (post : List CompanyRef)
    (hr : effActive r = true) :
    ∀ pre : List CompanyRef, (∀ p ∈ pre, effActive p = false) →
      removeFirstActive (pre ++ r :: post) = some (pre ++ post) := by
  intro pre
  induction pre with
  | nil =>
    intro _
    unfold removeFirstActive
    rw [List.nil_append, List.nil_append]
    simp [hr]
  | cons p ps ih =>
    intro hall
    have hp : effActive p = false := hall p (List.mem_cons_self p ps)
    rw [List.cons_append]
    unfold removeFirstActive
    rw [hp]
    simp only [Bool.false_eq_true, if_false]
    rw [ih (fun q hq => hall q (List.mem_cons_of_mem p hq))]
    rfl

/-- C10: a stored reference without the `isCompanyActive` field behaves as
active for every reader — `get_active_company` returns it as the current
company (skipping explicitly inactive entries before it), `unlink_company`
removes it through the remove-the-active-reference pass (not the fallback),
and the license-type cascade treats it as the active reference and updates
through it. -/
theorem C10_missing_flag_defaults_active (db : List Company) (r : CompanyRef)
    (pre post : List CompanyRef) (doc : CustomerDoc) (d : StoredDoc)
    (cid : Nat) (newLicenseType : String)
    (hflag : r.isCompanyActive = none)
    (hpre : ∀ p ∈ pre, p.isCompanyActive = some false)
    (hdoc : doc.company = .arr (pre ++ r :: post))
    (hd : d.company = .arr [r]) (hid : r.id = some cid) :
    get_active_company (.arr (pre ++ r :: post)) = some r ∧
    removeFirstActive (pre ++ r :: post) = some (pre ++ post) ∧
    unlink_company db doc = .ok { doc with company := .arr (pre ++ post) } ∧
    update_license_type_by_company cid newLicenseType [d] =
      [{ d with license_type := some newLicenseType }] := by
  have hr : effActive r = true := by simp [effActive, hflag]
  have hpre' : ∀ p ∈ pre, effActive p = false := fun p hp => by
    simp [effActive, hpre p hp]
  have hrem : removeFirstActive (pre ++ r :: post) = some (pre ++ post) :=
    removeFirstActive_append r post hr pre hpre'
  refine ⟨?_, hrem, ?_, ?_⟩
  · unfold get_active_company
    exact find?_effActive_append r post hr pre hpre'
  · have hnorm : mutatorNormalize db (loadCompanyField doc.company) =
        pre ++ r :: post := by
      rw [hdoc]; rfl
    have hne : (pre ++ r :: post).isEmpty = false := by
      cases pre <;> rfl
    simp only [unlink_company]
    rw [hnorm, hrem, hne]
    simp
  · have hel : elemMatchId cid d = true := by
      unfold elemMatchId
      rw [hd]
      simp [hid]
    have hsho : license_should_update cid d = true := by
      unfold license_should_update
      rw [hd]
      simp [hid, hr]
    unfold update_license_type_by_company
    rw [List.map_cons, List.map_nil, hel, hsho]
    simp

/-- Reference stored without the `isCompanyActive` flag (legacy document). -/
def c10Ref : CompanyRef :=
  { id := some 9, name := "Legacy", isCompanyActive := none, license_type := none }

/-- An explicitly inactive historical reference preceding it. -/
def c10Pre : CompanyRef :=
  { id := some 2, name := "Beta", isCompanyActive := some false, license_type := none }

/-- Affiliate document: inactive history first, then the flagless legacy
reference. -/
def c10Doc : CustomerDoc :=
  { company := .arr [c10Pre, c10Ref], license_type := none }

/-- Stored document whose only reference is the flagless legacy one. -/
def c10Stored : StoredDoc :=
  { docId := 4, company := .arr [c10Ref], license_type := none }

/-- C10 witness: the reader-default theorem at concrete documents. -/
theorem C10_missing_flag_defaults_active_witness :
    get_active_company (.arr ([c10Pre] ++ c10Ref :: [])) = some c10Ref ∧
    removeFirstActive ([c10Pre] ++ c10Ref :: []) = some ([c10Pre] ++ []) ∧
    unlink_company exDB2 c10Doc = .ok { c10Doc with company := .arr ([c10Pre] ++ []) } ∧
    update_license_type_by_company 9 "Hub" [c10Stored] =
      [{ c10Stored with license_type := some "Hub" }] :=
  C10_missing_flag_defaults_active exDB2 c10Ref [c10Pre] [] c10Doc c10Stored 9 "Hub"
    rfl (by decide) rfl rfl rfl

/-- One caller-supplied entry of the company list in a create/update
payload: a bare company name, or a reference-shaped dict. -/
inductive CompanyInputItem where
  | nameStr (s : String) : CompanyInputItem
  | refDict (r : CompanyRef) : CompanyInputItem
deriving DecidableEq, Repr

/-- The caller-supplied company field of a create/update payload. -/
inductive CompanyInput where
  | empty : CompanyInput
  | nameStr (s : String) : CompanyInput
  | refDict (r : CompanyRef) : CompanyInput
  | items (l : List CompanyInputItem) : CompanyInput
deriving DecidableEq, Repr

/-- The indexed loop of the create/update company normalization
(`customer_repository.py` lines 118-132 and 370-383): a string entry must
resolve with `validate_status=True` (a failure aborts the whole operation),
a dict entry is copied; either way the entry's `isCompanyActive` flag is
forced to `idx == 0`. -/
def supplied_items_loop (db : List Company) : Nat → List CompanyInputItem →
    Except String (List CompanyRef)
  | _, [] => .ok []
  | idx, .nameStr s :: rest =>
    match resolve_company_reference db s true with
    | some ref =>
      match supplied_items_loop db (idx + 1) rest with
      | .ok tail => .ok ({ ref with isCompanyActive := some (decide (idx = 0)) } :: tail)
      | .error e => .error e
    | none => .error s
  | idx, .refDict r :: rest =>
    match supplied_items_loop db (idx + 1) rest with
    | .ok tail => .ok ({ r with isCompanyActive := some (decide (idx = 0)) } :: tail)
    | .error e => .error e

/-- The company normalization block shared verbatim by
`CustomerRepository.create` (lines 113-146) and `CustomerRepository.update`
(lines 365-396): a falsy field yields an empty array; a list is processed by
the indexed loop; a bare string resolves to a single active entry (failure
aborts); a single dict becomes a single active entry. -/
def supplied_companies_list (db : List Company) : CompanyInput →
    Except String (List CompanyRef)
  | .empty => .ok []
  | .items l => supplied_items_loop db 0 l
  | .nameStr s =>
    if s = "" then .ok []
    else
      match resolve_company_reference db s true with
      | some ref => .ok [{ ref with isCompanyActive := some true }]
      | none => .error s
  | .refDict r => .ok [{ r with isCompanyActive := some true }]

/-- The company handling of `CustomerRepository.create_many` (lines
170-209): only a truthy bare-string company is resolved (through the
deduplicated name cache, which is populated exactly when resolution with
`validate_status=True` succeeds); on success the customer gets a single
entry forced active, on failure the customer row is skipped (`none`); every
non-string company value falls to the else branch and is persisted as an
empty array. -/
def create_many_company_field (db : List Company) : CompanyInput →
    Option (List CompanyRef)
  | .nameStr s =>
    if s = "" then some []
    else
      match resolve_company_reference db s true with
      | some ref => some [{ ref with isCompanyActive := some true }]
      | none => none
  | _ => some []

/-- A caller-supplied reference dict that asks to be active. -/
def c8Item : CompanyRef :=
  { id := some 2, name := "Beta", isCompanyActive := some true, license_type := none }

/-- C8 counterexample: handing `create_many` a list-valued company persists
an empty array — the caller's entries are dropped and nothing is active at
index 0 — while the per-affiliate create path persists the forced
single-active list, so the bulk path does not produce the claimed outcome. -/
theorem C8_bulk_create_counterexample :
    create_many_company_field exDB2 (.items [.refDict c8Item]) = some [] ∧
    supplied_companies_list exDB2 (.items [.refDict c8Item]) =
      .ok [{ c8Item with isCompanyActive := some true }] ∧
    (some ([] : List CompanyRef) ≠
      some [{ c8Item with isCompanyActive := some true }]) := by
  refine ⟨rfl, rfl, ?_⟩
  decide

lemma supplied_items_loop_spec (db : List Company) :
    ∀ (l : List CompanyInputItem) (idx : Nat) (res : List CompanyRef),
      supplied_items_loop db idx l = .ok res →
      res.length = l.length ∧
      ∀ (i : Nat) (r : CompanyRef), res[i]? = some r →
        r.isCompanyActive = some (decide (idx + i = 0)) := by
  intro l
  induction l with
  | nil =>
    intro idx res h
    cases h
    exact ⟨rfl, fun i r h => by cases h⟩
  | cons item rest ih =>
    intro idx res h
    cases item with
    | nameStr s =>
      unfold supplied_items_loop at h
      cases hres : resolve_company_reference db s true with
      | none => rw [hres] at h; cases h
      | some ref =>
        rw [hres] at h
        cases hloop : supplied_items_loop db (idx + 1) rest with
        | error e => rw [hloop] at h; cases h
        | ok tail =>
          rw [hloop] at h
          cases h
          obtain ⟨hlen, hflags⟩ := ih (idx + 1) tail hloop
          refine ⟨by simp [hlen], ?_⟩
          intro i r hir
          cases i with
          | zero =>
            rw [List.getElem?_cons_zero] at hir
            cases hir
            simp
          | succ i' =>
            rw [List.getElem?_cons_succ] at hir
            have := hflags i' r hir
            have harith : idx + 1 + i' = idx + (i' + 1) := by omega
            rw [harith] at this
            exact this
    | refDict rd =>
      unfold supplied_items_loop at h
      cases hloop : supplied_items_loop db (idx + 1) rest with
      | error e => rw [hloop] at h; cases h
      | ok tail =>
        rw [hloop] at h
        cases h
        obtain ⟨hlen, hflags⟩ := ih (idx + 1) tail hloop
        refine ⟨by simp [hlen], ?_⟩
        intro i r hir
        cases i with
        | zero =>
          rw [List.getElem?_cons_zero] at hir
          cases hir
          simp
        | succ i' =>
          rw [List.getElem?_cons_succ] at hir
          have := hflags i' r hir
          have harith : idx + 1 + i' = idx + (i' + 1) := by omega
          rw [harith] at this
          exact this

/-- C8 amended: on the create and update paths a caller-supplied company
list is persisted with only the entry at index 0 active and every later
entry forced inactive regardless of the supplied flags (and a bare string or
single dict becomes one active entry); bulk create resolves only bare-string
company values — for those its deduplicated lookup yields exactly the
per-affiliate outcome — and persists an empty array for every list-valued
(or other non-string) company input. -/
theorem C8_position_zero_wins (db : List Company) :
    (∀ (l : List CompanyInputItem) (res : List CompanyRef),
      supplied_companies_list db (.items l) = .ok res →
      res.length = l.length ∧
      ∀ (i : Nat) (r : CompanyRef), res[i]? = some r →
        r.isCompanyActive = some (decide (i = 0))) ∧
    (∀ (s : String) (ref : CompanyRef),
      resolve_company_reference db s true = some ref →
      supplied_companies_list db (.nameStr s) =
        .ok [{ ref with isCompanyActive := some true }] ∧
      create_many_company_field db (.nameStr s) =
        some [{ ref with isCompanyActive := some true }]) ∧
    (∀ r, supplied_companies_list db (.refDict r) =
      .ok [{ r with isCompanyActive := some true }]) ∧
    (∀ l, create_many_company_field db (.items l) = some []) := by
  refine ⟨?_, ?_, fun r => rfl, fun l => rfl⟩
  · intro l res h
    obtain ⟨hlen, hflags⟩ := supplied_items_loop_spec db l 0 res h
    refine ⟨hlen, ?_⟩
    intro i r hir
    have := hflags i r hir
    rw [Nat.zero_add] at this
    exact this
  · intro s ref hres
    have hs : ¬s = "" := by
      intro h0
      subst h0
      have hnone : resolve_company_reference db "" true = none := rfl
      rw [hnone] at hres
      cases hres
    constructor
    · simp only [supplied_companies_list]
      rw [if_neg hs, hres]
    · simp only [create_many_company_field]
      rw [if_neg hs, hres]

/-- A supplied entry carrying `isCompanyActive = true` that will be forced
inactive at index 1. -/
def c8Item2 : CompanyRef :=
  { id := some 1, name := "Acme", isCompanyActive := some true, license_type := none }

/-- The persisted list for two supplied dict entries: index 0 forced active,
index 1 forced inactive. -/
def c8Forced : List CompanyRef :=
  [{ c8Item2 with isCompanyActive := some true },
   { c8Item2 with isCompanyActive := some false }]

/-- C8 witness: the amended theorem applied to a concrete two-entry supplied
list. -/
theorem C8_position_zero_wins_witness :
    supplied_companies_list exDB2 (.items [.refDict c8Item2, .refDict c8Item2]) =
      .ok c8Forced ∧
    ∀ (i : Nat) (r : CompanyRef), c8Forced[i]? = some r →
      r.isCompanyActive = some (decide (i = 0)) :=
  ⟨rfl, fun i r h =>
    ((C8_position_zero_wins exDB2).1 [.refDict c8Item2, .refDict c8Item2]
      c8Forced rfl).2 i r h⟩

/-- An underlying storage failure (database driver exception), carried
opaquely. -/
inductive StorageErr where
  | failure (msg : String) : StorageErr
deriving DecidableEq, Repr

/-- Failure outcomes of a link operation over a fallible store: the
user-input errors plus a storage error passed through unchanged. -/
inductive LinkFailure where
  | companyNotEligible : LinkFailure
  | alreadyLinked : LinkFailure
  | customerNotFound : LinkFailure
  | storage (e : StorageErr) : LinkFailure
deriving DecidableEq, Repr

/-- `resolve_company_reference` over a fallible `find_by_name` (lines
57-103): the bare `except` block around the lookup catches any exception,
logs a warning, and returns `None`, so a storage failure leaves the resolver
with the same outcome as an absent company. -/
def resolve_company_reference_fallible
    (findByName : String → Except StorageErr (Option Company))
    (companyName : String) (validateStatus : Bool) : Option CompanyRef :=
  if pyStrip companyName = "" then none
  else
    match findByName (pyStrip companyName) with
    | .error _ => none
    | .ok none => none
    | .ok (some c) =>
      if validateStatus && !c.active then none
      else some (mkResolvedRef c)

/-- The link/unlink normalization block over the fallible resolver (the
bare-string branch swallows lookup failures the same way). -/
def mutatorNormalize_fallible
    (findByName : String → Except StorageErr (Option Company)) :
    CompanyField → List CompanyRef
  | .empty => []
  | .arr l => l
  | .obj r => [r]
  | .str s =>
    match resolve_company_reference_fallible findByName s false with
    | some r => [r]
    | none => []

/-- `link_company` over a fallible store (lines 412-520): `findCustomer`
models `find_by_id` and `persist` models the `update_one` write — an
exception from either propagates through the outer try/except unchanged —
while a failure inside the resolver has already been converted to `None`
before `link_company` can see it. -/
def link_company_fallible
    (findByName : String → Except StorageErr (Option Company))
    (findCustomer : Except StorageErr (Option CustomerDoc))
    (persist : CustomerDoc → Except StorageErr Unit)
    (companyName : String) : Except LinkFailure CustomerDoc :=
  match resolve_company_reference_fallible findByName companyName true with
  | none => .error .companyNotEligible
  | some companyRef =>
    match findCustomer with
    | .error e => .error (.storage e)
    | .ok none => .error .customerNotFound
    | .ok (some customer) =>
      match linkMerge companyRef
          (mutatorNormalize_fallible findByName (loadCompanyField customer.company)) with
      | .error _ => .error .alreadyLinked
      | .ok refs =>
        let newDoc : CustomerDoc :=
          { customer with
            company := .arr refs
            license_type :=
              match companyRef.license_type with
              | some lt => some lt
              | none => customer.license_type }
        match persist newDoc with
        | .error e => .error (.storage e)
        | .ok _ => .ok newDoc

/-- A lookup that always fails with a driver error. -/
def c9FailingFind : String → Except StorageErr (Option Company) :=
  fun _ => .error (.failure "connection reset")

/-- A customer document with no company linked yet. -/
def c9Customer : CustomerDoc := { company := .empty, license_type := none }

/-- C9 counterexample: a storage failure during company-name resolution is
swallowed and reported as the user-input outcome `CompanyNotEligible`, not
passed through as a storage error — contradicting "propagates unmodified
... including during company-name resolution". -/
theorem C9_resolution_failure_counterexample :
    link_company_fallible c9FailingFind (.ok (some c9Customer)) (fun _ => .ok ()) "Acme" =
      .error .companyNotEligible ∧
    link_company_fallible c9FailingFind (.ok (some c9Customer)) (fun _ => .ok ()) "Acme" ≠
      .error (.storage (.failure "connection reset")) := by
  refine ⟨rfl, ?_⟩
  intro h
  cases h

/-- C9 amended: a storage failure during company-name resolution is
swallowed by the resolver's bare except and surfaces as the
`CompanyNotEligible` user-input outcome; a storage failure in the rest of
the link operation (loading the customer, persisting the update) propagates
unmodified as a storage error; no retry is performed — the operation issues
each store call once and returns its first failure. -/
theorem C9_storage_failure_semantics
    (findByName : String → Except StorageErr (Option Company))
    (findCustomer : Except StorageErr (Option CustomerDoc))
    (persist : CustomerDoc → Except StorageErr Unit)
    (name : String) :
    (∀ e, findByName (pyStrip name) = .error e →
      link_company_fallible findByName findCustomer persist name =
        .error .companyNotEligible) ∧
    (∀ ref e, resolve_company_reference_fallible findByName name true = some ref →
      findCustomer = .error e →
      link_company_fallible findByName findCustomer persist name =
        .error (.storage e)) ∧
    (∀ ref customer refs e,
      resolve_company_reference_fallible findByName name true = some ref →
      findCustomer = .ok (some customer) →
      linkMerge ref (mutatorNormalize_fallible findByName
        (loadCompanyField customer.company)) = .ok refs →
      persist { customer with
          company := .arr refs
          license_type :=
            match ref.license_type with
            | some lt => some lt
            | none => customer.license_type } = .error e →
      link_company_fallible findByName findCustomer persist name =
        .error (.storage e)) := by
  refine ⟨?_, ?_, ?_⟩
  · intro e herr
    have hres : resolve_company_reference_fallible findByName name true = none := by
      unfold resolve_company_reference_fallible
      by_cases hempty : pyStrip name = ""
      · rw [if_pos hempty]
      · rw [if_neg hempty, herr]
    simp [link_company_fallible, hres]
  · intro ref e hres hcust
    simp [link_company_fallible, hres, hcust]
  · intro ref customer refs e hres hcust hmerge hpersist
    simp [link_company_fallible, hres, hcust, hmerge, hpersist]

/-- A lookup backed by the example store that never fails. -/
def c9FindOk : String → Except StorageErr (Option Company) :=
  fun s => .ok (find_by_name exDB2 s)

/-- C9 witness: a failing customer load propagates as a storage error. -/
theorem C9_storage_failure_semantics_witness :
    link_company_fallible c9FindOk (.error (.failure "io")) (fun _ => .ok ()) "Beta" =
      .error (.storage (.failure "io")) :=
  (C9_storage_failure_semantics c9FindOk (.error (.failure "io"))
    (fun _ => .ok ()) "Beta").2.1 (mkResolvedRef exActive) (.failure "io") rfl rfl

end AffiliationEngine
